import Mathlib

/-!
Verification of the data-collection pipeline of the LAB03 code-review
characterization repository (scripts/get_prs.py, scripts/get_repos.py).

The embedding is shallow: machine behaviour is translated into executable
Lean definitions.  Network responses are abstracted into an `ApiResponse`
classifying the five branches the source code distinguishes; `time.sleep`
calls are recorded in a trace instead of performed; the CSV output file is
a list of rows; timestamps are integers (seconds), with distinguished
states for an absent value (JSON null / empty string, falsy in Python) and
a present-but-unparseable string (dateutil raises ValueError).
-/

/-- Classification of one HTTP round trip, mirroring the branches of the
source: a raised exception (`requests.exceptions.RequestException` or
`json.JSONDecodeError`), a non-200 status code, a parsed 200 body whose
error list contains a RATE_LIMITED entry, a parsed 200 body with some other
error list, or a parsed 200 body with no errors carrying a payload. -/
inductive ApiResponse (α : Type) where
  | exn : ApiResponse α
  | badStatus (code : Nat) : ApiResponse α
  | errorsRateLimited : ApiResponse α
  | errorsOther : ApiResponse α
  | ok (payload : α) : ApiResponse α
deriving DecidableEq

/-- Observable outcome of one call to a request helper: the returned value
(`none` models Python returning `None`), the argument of every
`time.sleep` call in order, and how many HTTP posts were attempted. -/
structure ReqTrace (α : Type) where
  result : Option α
  sleeps : List Nat
  attempts : Nat
deriving DecidableEq

/-- A transport-level failure in the sense of get_prs.py's `request`: a
raised exception or a non-200 status.  Both fall through to the backoff
sleep at the bottom of the loop body. -/
def isTransportFailure {α : Type} : ApiResponse α → Bool
  | .exn => true
  | .badStatus _ => true
  | _ => false

namespace GetPrs

/-- Loop body of scripts/get_prs.py `request` (lines 47-72).  `net i` is the
response to the i-th HTTP post.  `rem` is the number of loop iterations
left of `for attempt in range(retries)`, `delay` the current backoff delay.
A 200 response with no errors returns the payload; a 200 response with a
non-rate-limit error list returns None at once; a rate-limited response
sleeps 60 and runs `continue` (next iteration, delay untouched, no backoff
sleep); an exception or non-200 status falls through to `time.sleep(delay);
delay *= 2`.  After the last iteration the function returns None. -/
def requestLoop {α : Type} (net : Nat → ApiResponse α) : Nat → Nat → Nat → ReqTrace α
  | _, 0, _ => ⟨none, [], 0⟩
  | iter, rem + 1, delay =>
    match net iter with
    | .ok p => ⟨some p, [], 1⟩
    | .errorsOther => ⟨none, [], 1⟩
    | .errorsRateLimited =>
        let t := requestLoop net (iter + 1) rem delay
        ⟨t.result, 60 :: t.sleeps, t.attempts + 1⟩
    | .exn =>
        let t := requestLoop net (iter + 1) rem (delay * 2)
        ⟨t.result, delay :: t.sleeps, t.attempts + 1⟩
    | .badStatus _ =>
        let t := requestLoop net (iter + 1) rem (delay * 2)
        ⟨t.result, delay :: t.sleeps, t.attempts + 1⟩

/-- scripts/get_prs.py `request` with its default arguments
(`retries=3, delay=5`). -/
def request {α : Type} (net : Nat → ApiResponse α) : ReqTrace α :=
  requestLoop net 0 3 5

end GetPrs

/-- The sequence of backoff sleeps produced by `rem` consecutive
transport failures starting from delay `d`: `d` then doubling. -/
def backoffSleeps : Nat → Nat → List Nat
  | _, 0 => []
  | d, rem + 1 => d :: backoffSleeps (d * 2) rem

namespace GetRepos

/-- scripts/get_repos.py `request` (lines 57-71).  One single HTTP post,
sent without a timeout argument and outside any try block: a raised
exception propagates to the caller (modelled as `Except.error`).  A non-200
status or any application-level error list — rate-limited or not — returns
None immediately; there is no sleep and no retry. -/
def request {α : Type} (resp : ApiResponse α) : Except Unit (ReqTrace α) :=
  match resp with
  | .exn => .error ()
  | .badStatus _ => .ok ⟨none, [], 1⟩
  | .errorsRateLimited => .ok ⟨none, [], 1⟩
  | .errorsOther => .ok ⟨none, [], 1⟩
  | .ok p => .ok ⟨some p, [], 1⟩

/-- scripts/get_repos.py `countPRs` (lines 76-83).  The payload of a
successful qualification response is `repository` — `none` when the API
returns a null repository, otherwise the closed+merged PR total count.
Returns whether the count is at least 100; any failed request (including a
rate-limited one) yields `false`. -/
def countPRs (resp : ApiResponse (Option Nat)) : Except Unit Bool :=
  match request resp with
  | .error e => .error e
  | .ok t =>
      match t.result with
      | some (some n) => .ok (decide (100 ≤ n))
      | _ => .ok false

end GetRepos

/-- A timestamp field of a PR node as it reaches the collector: JSON null
or an empty string (falsy in Python, and `dateutil.parser.parse` raises
TypeError on None), a non-empty string that fails to parse (ValueError),
or a string parsing to `t` seconds since the epoch. -/
inductive TsField where
  | absent : TsField
  | malformed : TsField
  | valid (t : Int) : TsField
deriving DecidableEq

/-- Python truthiness of a timestamp field: null/empty string is falsy,
any other string is truthy whether or not it parses. -/
def isTruthy : TsField → Bool
  | .absent => false
  | _ => true

/-- `dateutil.parser.parse` on a timestamp field: `some t` on success,
`none` when the call would raise TypeError (absent) or ValueError
(malformed). -/
def parseTs : TsField → Option Int
  | .valid t => some t
  | _ => none

/-- One PR node of a pull-request page as returned by the GraphQL query
QUERY_PRS of scripts/get_prs.py. -/
structure PRNode where
  number : Nat
  changedFiles : Nat
  additions : Nat
  deletions : Nat
  createdAt : TsField
  closedAt : TsField
  mergedAt : TsField
  body : Option String
  participantsTotalCount : Nat
  totalCommentsCount : Nat
  reviewsTotalCount : Nat
deriving DecidableEq

/-- One output row of the dataset, with the fields of the dict built at
lines 129-137 of scripts/get_prs.py, in order. -/
structure PRRecord where
  repo_owner : String
  repo_name : String
  pr_number : Nat
  changed_files : Nat
  additions : Nat
  deletions : Nat
  created_at : TsField
  closed_at : TsField
  merged_at : TsField
  body_chars : Nat
  participants : Nat
  comments : Nat
  reviews : Nat
deriving DecidableEq

/-- The closure timestamp the collector uses:
`pr['mergedAt'] if pr['mergedAt'] else pr['closedAt']` (line 123). -/
def chooseClosed (pr : PRNode) : TsField :=
  if isTruthy pr.mergedAt then pr.mergedAt else pr.closedAt

/-- `len(pr['body']) if pr['body'] else 0` (line 134): None and the empty
string are falsy, and the empty string has length 0 anyway. -/
def bodyChars : Option String → Nat
  | none => 0
  | some s => s.length

/-- The dict literal of lines 129-137 of scripts/get_prs.py. -/
def mkRecord (owner name : String) (pr : PRNode) : PRRecord :=
  { repo_owner := owner
    repo_name := name
    pr_number := pr.number
    changed_files := pr.changedFiles
    additions := pr.additions
    deletions := pr.deletions
    created_at := pr.createdAt
    closed_at := pr.closedAt
    merged_at := pr.mergedAt
    body_chars := bodyChars pr.body
    participants := pr.participantsTotalCount
    comments := pr.totalCommentsCount
    reviews := pr.reviewsTotalCount }

/-- Per-node body of the `for pr in prs_data['nodes']` loop of
scripts/get_prs.py `processRepo` (lines 119-138): `none` when one of the
`continue` statements fires (zero reviews; TypeError/ValueError while
parsing the creation or closure timestamp; falsy closure string; elapsed
seconds strictly below 3600), `some` of the built record otherwise. -/
def processNode (owner name : String) (pr : PRNode) : Option PRRecord :=
  if pr.reviewsTotalCount = 0 then none
  else
    match parseTs pr.createdAt with
    | none => none
    | some created =>
      let closedStr := chooseClosed pr
      if ¬ isTruthy closedStr then none
      else
        match parseTs closedStr with
        | none => none
        | some closed =>
          if closed - created < 3600 then none
          else some (mkRecord owner name pr)

/-- One page of the paginated pull-request listing: the PR nodes and the
`pageInfo.hasNextPage` flag (the opaque `endCursor` is abstracted away —
the response sequence below is already indexed by request order). -/
structure Page where
  nodes : List PRNode
  hasNextPage : Bool
deriving DecidableEq

/-- The `while has_next_page` loop of scripts/get_prs.py `processRepo`
(lines 99-141), over the sequence of responses the API gives to the
successive page requests.  `none` stands for any of the break conditions
of lines 104-115 (request returned None, or a missing/null
`data.repository` / `pullRequests`), which abandon the loop keeping the
records accumulated so far; an exhausted response sequence behaves the
same way.  A `some` page appends the surviving nodes of the page and
continues while `hasNextPage` is true. -/
def processRepoLoop (owner name : String) : List PRRecord → List (Option Page) → List PRRecord
  | acc, [] => acc
  | acc, none :: _ => acc
  | acc, some p :: rest =>
      if p.hasNextPage then
        processRepoLoop owner name (acc ++ p.nodes.filterMap (processNode owner name)) rest
      else acc ++ p.nodes.filterMap (processNode owner name)

/-- scripts/get_prs.py `processRepo` (lines 93-143), starting from the
empty accumulator. -/
def processRepo (owner name : String) (responses : List (Option Page)) : List PRRecord :=
  processRepoLoop owner name [] responses

/-- A row of the output CSV file: the header line or a data line. -/
inductive CsvRow where
  | header : CsvRow
  | data (rec : PRRecord) : CsvRow
deriving DecidableEq

/-- The durable output file: `none` when the file does not exist,
`some rows` its lines otherwise (so `some []` is an existing file of size
zero). -/
abbrev FileState := Option (List CsvRow)

/-- The owner/name key a row contributes when pandas reads the file with
`usecols=['repo_owner','repo_name']` and the header line of the file is
elsewhere: a data line yields `f"{repo_owner}/{repo_name}"`; a header line
read as data yields the literal column names. -/
def rowKey : CsvRow → String
  | .header => "repo_owner/repo_name"
  | .data rec => rec.repo_owner ++ "/" ++ rec.repo_name

/-- scripts/get_prs.py `getValidRepos` (lines 77-86), exceptions included.
`os.path.exists` fails → empty set.  `pd.read_csv` raises EmptyDataError
on a size-zero file, which the `except (EmptyDataError, KeyError)` clause
catches → empty set.  On a file whose first line is not the expected
header, `pd.read_csv(..., usecols=['repo_owner','repo_name'])` raises
ValueError (usecols validation against the parsed header) — an exception
the except clause does not catch, so it propagates and the caller crashes
(`Except.error`); the KeyError alternative listed in the except clause is
unreachable, because the usecols check fires before any column lookup.
Otherwise the set of `f"{owner}/{name}"` strings of the remaining
lines. -/
def getValidReposChecked : FileState → Except Unit (Finset String)
  | none => .ok ∅
  | some [] => .ok ∅
  | some (CsvRow.data _ :: _) => .error ()
  | some (CsvRow.header :: rest) => .ok ((rest.map rowKey).toFinset)

/-- Total projection of `getValidReposChecked`, used by the orchestrator
model: the one state where the real function raises instead of returning
(an existing, non-empty file whose first line is not the expected header)
is collapsed to the empty set so that the orchestrator model stays a
function.  The orchestrator theorems apply it only to an absent file or to
header-first files written by `appendRecords`, where it agrees with
`getValidReposChecked` (lemma `getValidReposChecked_wf`); the crash path
itself is the subject of the progress-loader claim. -/
def getValidRepos : FileState → Finset String
  | none => ∅
  | some [] => ∅
  | some (CsvRow.data _ :: _) => ∅
  | some (CsvRow.header :: rest) => (rest.map rowKey).toFinset

/-- The incremental write of scripts/get_prs.py `main` (lines 165-170):
open in append mode (creating the file when absent), write the header
first exactly when the file did not exist or had size zero, then append
every record as one row. -/
def appendRecords (file : FileState) (recs : List PRRecord) : FileState :=
  let rows := file.getD []
  some (rows ++ (if file.isNone || rows.isEmpty then [CsvRow.header] else [])
      ++ recs.map CsvRow.data)

/-- The record a row carries, when it is a data row. -/
def csvData : CsvRow → Option PRRecord
  | CsvRow.data rec => some rec
  | CsvRow.header => none

/-- The data rows of the output file, in order. -/
def dataRecs (file : FileState) : List PRRecord :=
  (file.getD []).filterMap csvData

/-- A candidate repository row of ../results/repos.csv. -/
structure RepoRef where
  owner : String
  name : String
deriving DecidableEq

/-- `f"{owner}/{name}"`, the identity key used by the progress check. -/
def fullName (r : RepoRef) : String := r.owner ++ "/" ++ r.name

/-- The identity triple of an output row, whose duplication the resume
property is about. -/
def tripleOf (rec : PRRecord) : String × String × Nat :=
  (rec.repo_owner, rec.repo_name, rec.pr_number)

/-- The `for index, repo in repos_df.iterrows()` loop of
scripts/get_prs.py `main` (lines 150-173).  `api r` is the response
sequence the network gives to repository `r`'s page requests during this
run; `processed` is the progress set loaded once at startup.  A candidate
already in the progress set is skipped; otherwise its PRs are collected,
and appended to the file only when the collected list is non-empty.
Besides the final file the model returns the list of candidates for which
collection was actually invoked. -/
def mainLoop (api : RepoRef → List (Option Page)) (processed : Finset String) :
    List RepoRef → FileState → FileState × List RepoRef
  | [], file => (file, [])
  | r :: rest, file =>
      if fullName r ∈ processed then mainLoop api processed rest file
      else
        Prod.map id (fun collected => r :: collected)
          (mainLoop api processed rest
            (if processRepo r.owner r.name (api r) = [] then file
             else appendRecords file (processRepo r.owner r.name (api r))))

/-- scripts/get_prs.py `main` (lines 146-175): load the progress set from
the current output file, then run the candidate loop against it. -/
def mainRun (api : RepoRef → List (Option Page)) (repos : List RepoRef)
    (file : FileState) : FileState × List RepoRef :=
  mainLoop api (getValidRepos file) repos file

/-- The records the candidate loop appends, in order: nothing for a
skipped candidate, the collected list for the rest.  (Proof-side
characterization of `mainLoop`, not part of the source.) -/
def newRows (api : RepoRef → List (Option Page)) (processed : Finset String) :
    List RepoRef → List PRRecord
  | [] => []
  | r :: rest =>
      (if fullName r ∈ processed then [] else processRepo r.owner r.name (api r))
        ++ newRows api processed rest

/-- A well-formed output file: absent, or a header line followed by data
lines only — the shape every file produced by this program has. -/
def WFfile (file : FileState) : Prop :=
  file = none ∨ ∃ recs : List PRRecord, file = some (CsvRow.header :: recs.map CsvRow.data)

/-- A concrete candidate repository, used to instantiate theorems. -/
def sampleRepo : RepoRef := ⟨"octo", "hello"⟩

/-- A PR node that passes every filter: 2 reviews, created at 0, closed at
7200 (two hours later), never merged. -/
def goodNode : PRNode :=
  { number := 1, changedFiles := 2, additions := 10, deletions := 5,
    createdAt := .valid 0, closedAt := .valid 7200, mergedAt := .absent,
    body := some "desc", participantsTotalCount := 1, totalCommentsCount := 3,
    reviewsTotalCount := 2 }

/-- A PR node with zero reviews, otherwise identical to a passing one. -/
def zeroReviewNode : PRNode := { goodNode with number := 3, reviewsTotalCount := 0 }

/-- A PR node whose elapsed time is exactly 3600 seconds. -/
def boundaryNode : PRNode :=
  { goodNode with number := 2, closedAt := .valid 3600, reviewsTotalCount := 1 }

/-- A PR node whose closure timestamp is missing (null mergedAt and null
closedAt). -/
def missingCloseNode : PRNode := { goodNode with number := 4, closedAt := .absent }

/-- A single final page holding a passing node and a zero-review node. -/
def samplePage : Page := ⟨[goodNode, zeroReviewNode], false⟩

/-- A network giving every repository the single page `samplePage`. -/
def sampleApi : RepoRef → List (Option Page) := fun _ => [some samplePage]

/-- A network giving every repository one final page with no nodes. -/
def emptyPageApi : RepoRef → List (Option Page) := fun _ => [some ⟨[], false⟩]

/-- A network where every response raises or has a non-success status. -/
def allExn : Nat → ApiResponse Unit := fun _ => ApiResponse.exn

/-- A network whose first response is rate-limited and whose later
responses are transport failures. -/
def rlThenExn : Nat → ApiResponse Unit := fun i =>
  if i = 0 then ApiResponse.errorsRateLimited else ApiResponse.exn

/-- A network where every response is rate-limited. -/
def allRateLimited : Nat → ApiResponse Unit := fun _ => ApiResponse.errorsRateLimited

section ClientLemmas

variable {α : Type}

lemma requestLoop_allTransport (net : Nat → ApiResponse α) :
    ∀ rem iter d, (∀ i, i < rem → isTransportFailure (net (iter + i)) = true) →
      GetPrs.requestLoop net iter rem d = ⟨none, backoffSleeps d rem, rem⟩ := by
  intro rem
  induction rem with
  | zero => intro iter d _; rfl
  | succ k ih =>
    intro iter d h
    have h0 : isTransportFailure (net iter) = true := by
      simpa using h 0 (Nat.succ_pos k)
    have hrest : ∀ i, i < k → isTransportFailure (net (iter + 1 + i)) = true := by
      intro i hi
      have : iter + 1 + i = iter + (i + 1) := by omega
      rw [this]
      exact h (i + 1) (by omega)
    have hk := ih (iter + 1) (d * 2) hrest
    cases hn : net iter with
    | exn => simp [GetPrs.requestLoop, hn, hk, backoffSleeps]
    | badStatus c => simp [GetPrs.requestLoop, hn, hk, backoffSleeps]
    | errorsRateLimited => rw [hn] at h0; simp [isTransportFailure] at h0
    | errorsOther => rw [hn] at h0; simp [isTransportFailure] at h0
    | ok p => rw [hn] at h0; simp [isTransportFailure] at h0

lemma requestLoop_attempts_le (net : Nat → ApiResponse α) :
    ∀ rem iter d, (GetPrs.requestLoop net iter rem d).attempts ≤ rem := by
  intro rem
  induction rem with
  | zero => intro iter d; simp [GetPrs.requestLoop]
  | succ k ih =>
    intro iter d
    cases hn : net iter with
    | exn => simpa [GetPrs.requestLoop, hn] using ih (iter + 1) (d * 2)
    | badStatus c => simpa [GetPrs.requestLoop, hn] using ih (iter + 1) (d * 2)
    | errorsRateLimited => simpa [GetPrs.requestLoop, hn] using ih (iter + 1) d
    | errorsOther => simp [GetPrs.requestLoop, hn]
    | ok p => simp [GetPrs.requestLoop, hn]

lemma requestLoop_allRateLimited (net : Nat → ApiResponse α) :
    ∀ rem iter d, (∀ i, i < rem → net (iter + i) = .errorsRateLimited) →
      GetPrs.requestLoop net iter rem d = ⟨none, List.replicate rem 60, rem⟩ := by
  intro rem
  induction rem with
  | zero => intro iter d _; rfl
  | succ k ih =>
    intro iter d h
    have h0 : net iter = .errorsRateLimited := by
      have := h 0 (Nat.succ_pos k)
      simpa using this
    have hrest : ∀ i, i < k → net (iter + 1 + i) = .errorsRateLimited := by
      intro i hi
      have : iter + 1 + i = iter + (i + 1) := by omega
      rw [this]
      exact h (i + 1) (by omega)
    simp [GetPrs.requestLoop, h0, ih (iter + 1) d hrest, List.replicate_succ]

lemma requestLoop_rateLimited_step (net : Nat → ApiResponse α) (iter rem d : Nat)
    (h : net iter = ApiResponse.errorsRateLimited) :
    GetPrs.requestLoop net iter (rem + 1) d =
      ⟨(GetPrs.requestLoop net (iter + 1) rem d).result,
       60 :: (GetPrs.requestLoop net (iter + 1) rem d).sleeps,
       (GetPrs.requestLoop net (iter + 1) rem d).attempts + 1⟩ := by
  simp [GetPrs.requestLoop, h]

end ClientLemmas

/-- C3: given three consecutive transport-level failures the client's
request operation makes exactly 3 attempts, sleeping 5, 10 and 20 time
units (base 5, doubling each retry), returns the explicit failure signal
`None`, and performs no 4th attempt. -/
theorem backoff_three_failures {α : Type} (net : Nat → ApiResponse α)
    (h : ∀ i, i < 3 → isTransportFailure (net i) = true) :
    GetPrs.request net = ⟨none, [5, 10, 20], 3⟩ := by
  have h' : ∀ i, i < 3 → isTransportFailure (net (0 + i)) = true := by simpa using h
  exact requestLoop_allTransport net 3 0 5 h'

/-- Witness for C3 at the concrete network whose every response is a
raised exception. -/
theorem backoff_three_failures_witness :
    GetPrs.request allExn = ⟨none, [5, 10, 20], 3⟩ :=
  backoff_three_failures allExn (fun _ _ => rfl)

/-- C2 counterexample: the rate-limit `continue` advances the attempt
counter of `for attempt in range(retries)`, so a rate-limited response
does consume a retry slot.  After a first rate-limited response only two
transport attempts remain (sleeps 60, 5, 10 and then failure at attempt
3, not a 4th attempt), and three rate-limited responses in a row exhaust
the loop entirely and return the failure signal — retries are not
uncapped. -/
theorem rate_limit_consumes_slot_cex :
    GetPrs.request rlThenExn = ⟨none, [60, 5, 10], 3⟩ ∧
    GetPrs.request allRateLimited = ⟨none, [60, 60, 60], 3⟩ ∧
    (GetPrs.request rlThenExn).attempts ≠ 4 :=
  ⟨rfl, rfl, by decide⟩

/-- C2 amended: on a rate-limited parsed response the client sleeps 60
time units and moves to the next iteration of the same bounded 3-attempt
loop — consuming a retry slot while skipping the backoff sleep and leaving
the backoff delay unchanged — so rate-limit retries are capped by the same
3-attempt bound (never more than 3 attempts; three consecutive rate-limit
responses return the failure signal). -/
theorem rate_limit_retry_capped {α : Type} (net : Nat → ApiResponse α)
    (h0 : net 0 = ApiResponse.errorsRateLimited) :
    (GetPrs.request net).attempts ≤ 3 ∧
    (isTransportFailure (net 1) = true → isTransportFailure (net 2) = true →
      GetPrs.request net = ⟨none, [60, 5, 10], 3⟩) ∧
    ((∀ i, i < 3 → net i = ApiResponse.errorsRateLimited) →
      GetPrs.request net = ⟨none, [60, 60, 60], 3⟩) := by
  refine ⟨requestLoop_attempts_le net 3 0 5, ?_, ?_⟩
  · intro h1 h2
    have h' : ∀ i, i < 2 → isTransportFailure (net (1 + i)) = true := by
      intro i hi
      rcases i with _ | _ | i
      · simpa using h1
      · simpa using h2
      · omega
    have hk := requestLoop_allTransport net 2 1 5 h'
    have hmain : GetPrs.requestLoop net 0 (2 + 1) 5 = ⟨none, [60, 5, 10], 3⟩ := by
      rw [requestLoop_rateLimited_step net 0 2 5 h0]
      simp only [Nat.zero_add]
      rw [hk]
      rfl
    exact hmain
  · intro h
    have h' : ∀ i, i < 3 → net (0 + i) = ApiResponse.errorsRateLimited := by
      simpa using h
    exact requestLoop_allRateLimited net 3 0 5 h'

/-- Witness for the amended C2 at the concrete network that is
rate-limited once and then raises. -/
theorem rate_limit_retry_capped_witness :
    (GetPrs.request rlThenExn).attempts ≤ 3 ∧
    (isTransportFailure (rlThenExn 1) = true → isTransportFailure (rlThenExn 2) = true →
      GetPrs.request rlThenExn = ⟨none, [60, 5, 10], 3⟩) ∧
    ((∀ i, i < 3 → rlThenExn i = ApiResponse.errorsRateLimited) →
      GetPrs.request rlThenExn = ⟨none, [60, 60, 60], 3⟩) :=
  rate_limit_retry_capped rlThenExn rfl

/-- C9 counterexample: the discoverer's own request helper returns the
failure signal after a single attempt with no sleep, both on a non-success
status and on a rate-limited response (where the collector's rate-limited
client would instead sleep 5, 10, 20 across 3 attempts, or pause 60); its
qualification helper turns a rate-limited response into a plain `false`
with no cooldown. -/
theorem discoverer_plain_request_cex :
    GetRepos.request (ApiResponse.badStatus 500 : ApiResponse Unit) = Except.ok ⟨none, [], 1⟩ ∧
    GetRepos.request (ApiResponse.errorsRateLimited : ApiResponse Unit) = Except.ok ⟨none, [], 1⟩ ∧
    GetPrs.request (fun _ => (ApiResponse.badStatus 500 : ApiResponse Unit)) = ⟨none, [5, 10, 20], 3⟩ ∧
    GetRepos.countPRs ApiResponse.errorsRateLimited = Except.ok false :=
  ⟨rfl, rfl, rfl, rfl⟩

/-- C9 amended: every request the discoverer issues (the ranked search and
the per-candidate qualification, both through scripts/get_repos.py
`request`) is sent without a timeout and is attempted exactly once with no
sleeps: a non-success status or any application-level error — rate-limit
included — yields the failure signal immediately, a transport-level
exception propagates uncaught, and the qualification helper maps every
failed request to a plain rejection. -/
theorem discoverer_single_attempt {α : Type} (resp : ApiResponse α) :
    (∀ t, GetRepos.request resp = Except.ok t → t.sleeps = [] ∧ t.attempts = 1) ∧
    (GetRepos.request resp = Except.error () ↔ resp = ApiResponse.exn) ∧
    (resp = ApiResponse.errorsRateLimited →
      GetRepos.request resp = Except.ok ⟨none, [], 1⟩) ∧
    GetRepos.countPRs ApiResponse.errorsRateLimited = Except.ok false ∧
    GetRepos.countPRs ApiResponse.exn = Except.error () := by
  cases resp <;> refine ⟨?_, ?_, ?_, rfl, rfl⟩ <;> simp [GetRepos.request]

section CollectorLemmas

lemma parseTs_eq_some {x : TsField} {t : Int} : parseTs x = some t ↔ x = .valid t := by
  cases x <;> simp [parseTs]

lemma isTruthy_of_parseTs {x : TsField} {t : Int} (h : parseTs x = some t) :
    isTruthy x = true := by
  rw [parseTs_eq_some.mp h]; rfl

lemma processNode_eq_some {o n : String} {pr : PRNode} {rec : PRRecord}
    (h : processNode o n pr = some rec) :
    rec = mkRecord o n pr ∧ pr.reviewsTotalCount ≠ 0 ∧
      ∃ c cl : Int, parseTs pr.createdAt = some c ∧
        parseTs (chooseClosed pr) = some cl ∧ 3600 ≤ cl - c := by
  by_cases hrev : pr.reviewsTotalCount = 0
  · simp [processNode, hrev] at h
  · cases hc : parseTs pr.createdAt with
    | none => simp [processNode, hrev, hc] at h
    | some created =>
      by_cases ht : isTruthy (chooseClosed pr) = true
      · cases hcl : parseTs (chooseClosed pr) with
        | none => simp [processNode, hrev, hc, ht, hcl] at h
        | some closed =>
          by_cases hlt : closed - created < 3600
          · simp [processNode, hrev, hc, ht, hcl, hlt] at h
          · simp [processNode, hrev, hc, ht, hcl, hlt] at h
            exact ⟨h.symm, hrev, created, closed, rfl, rfl, by omega⟩
      · simp [processNode, hrev, hc, ht] at h

lemma processNode_retained {o n : String} {pr : PRNode} {c cl : Int}
    (hrev : pr.reviewsTotalCount ≠ 0) (hc : parseTs pr.createdAt = some c)
    (hcl : parseTs (chooseClosed pr) = some cl) (hge : 3600 ≤ cl - c) :
    processNode o n pr = some (mkRecord o n pr) := by
  have ht := isTruthy_of_parseTs hcl
  have hnlt : ¬ (cl - c < 3600) := by omega
  simp [processNode, hrev, hc, ht, hcl, hnlt]

lemma mem_processRepoLoop {o n : String} :
    ∀ (resp : List (Option Page)) (acc : List PRRecord) (rec : PRRecord),
      rec ∈ processRepoLoop o n acc resp →
      rec ∈ acc ∨ ∃ pr : PRNode, processNode o n pr = some rec := by
  intro resp
  induction resp with
  | nil => intro acc rec h; exact Or.inl h
  | cons hd tl ih =>
    intro acc rec h
    cases hd with
    | none => exact Or.inl h
    | some p =>
      simp only [processRepoLoop] at h
      by_cases hb : p.hasNextPage
      · rw [if_pos hb] at h
        rcases ih _ _ h with hacc | hex
        · rcases List.mem_append.mp hacc with h1 | h2
          · exact Or.inl h1
          · obtain ⟨pr, _, hsome⟩ := List.mem_filterMap.mp h2
            exact Or.inr ⟨pr, hsome⟩
        · exact Or.inr hex
      · rw [if_neg hb] at h
        rcases List.mem_append.mp h with h1 | h2
        · exact Or.inl h1
        · obtain ⟨pr, _, hsome⟩ := List.mem_filterMap.mp h2
          exact Or.inr ⟨pr, hsome⟩

lemma mem_processRepo {o n : String} {resp : List (Option Page)} {rec : PRRecord}
    (h : rec ∈ processRepo o n resp) :
    ∃ pr : PRNode, processNode o n pr = some rec := by
  rcases mem_processRepoLoop resp [] rec h with hacc | hex
  · simp at hacc
  · exact hex

lemma processRepo_owner_name {o n : String} {resp : List (Option Page)} {rec : PRRecord}
    (h : rec ∈ processRepo o n resp) :
    rec.repo_owner = o ∧ rec.repo_name = n := by
  obtain ⟨pr, hpr⟩ := mem_processRepo h
  obtain ⟨hrec, -, -⟩ := processNode_eq_some hpr
  subst hrec
  exact ⟨rfl, rfl⟩

end CollectorLemmas

section WriterLemmas

lemma filterMap_csvData_comp (recs : List PRRecord) :
    recs.filterMap (csvData ∘ CsvRow.data) = recs := by
  induction recs with
  | nil => rfl
  | cons r rs ih => simp [csvData, ih, Function.comp]

lemma filterMap_csvData_map (recs : List PRRecord) :
    (recs.map CsvRow.data).filterMap csvData = recs := by
  rw [List.filterMap_map]; exact filterMap_csvData_comp recs

lemma dataRecs_append (file : FileState) (recs : List PRRecord) :
    dataRecs (appendRecords file recs) = dataRecs file ++ recs := by
  show ((file.getD []) ++ (if file.isNone || (file.getD []).isEmpty
      then [CsvRow.header] else []) ++ recs.map CsvRow.data).filterMap csvData =
    (file.getD []).filterMap csvData ++ recs
  rw [List.filterMap_append, List.filterMap_append, filterMap_csvData_map]
  by_cases hc : (file.isNone || (file.getD []).isEmpty) = true
  · rw [if_pos hc]; simp [csvData]
  · rw [if_neg hc]; simp

lemma wf_appendRecords {file : FileState} (recs : List PRRecord) (h : WFfile file) :
    WFfile (appendRecords file recs) := by
  rcases h with rfl | ⟨rs, rfl⟩
  · exact Or.inr ⟨recs, by simp [appendRecords]⟩
  · exact Or.inr ⟨rs ++ recs, by simp [appendRecords]⟩

lemma getValidReposChecked_wf {file : FileState} (h : WFfile file) :
    getValidReposChecked file = Except.ok (getValidRepos file) := by
  rcases h with rfl | ⟨rs, rfl⟩
  · rfl
  · rfl

lemma getValidRepos_mem {file : FileState} (h : WFfile file) (key : String) :
    key ∈ getValidRepos file ↔
      ∃ rec ∈ dataRecs file, rec.repo_owner ++ "/" ++ rec.repo_name = key := by
  rcases h with rfl | ⟨rs, rfl⟩
  · simp [getValidRepos, dataRecs]
  · simp [getValidRepos, dataRecs, csvData, filterMap_csvData_comp, filterMap_csvData_map,
      List.map_map, List.mem_map, rowKey, Function.comp]

end WriterLemmas

section OrchestratorLemmas

variable (api : RepoRef → List (Option Page)) (processed : Finset String)

lemma mainLoop_fst : ∀ (repos : List RepoRef) (file : FileState),
    dataRecs (mainLoop api processed repos file).1 =
      dataRecs file ++ newRows api processed repos := by
  intro repos
  induction repos with
  | nil => intro file; simp [mainLoop, newRows]
  | cons r rest ih =>
    intro file
    by_cases hskip : fullName r ∈ processed
    · simp [mainLoop, hskip, newRows, ih]
    · by_cases hempty : processRepo r.owner r.name (api r) = []
      · simp [mainLoop, hskip, hempty, newRows, ih]
      · simp [mainLoop, hskip, hempty, newRows, ih, dataRecs_append]

lemma wf_mainLoop : ∀ (repos : List RepoRef) (file : FileState), WFfile file →
    WFfile (mainLoop api processed repos file).1 := by
  intro repos
  induction repos with
  | nil => intro file h; simpa [mainLoop] using h
  | cons r rest ih =>
    intro file h
    by_cases hskip : fullName r ∈ processed
    · simpa [mainLoop, hskip] using ih file h
    · by_cases hempty : processRepo r.owner r.name (api r) = []
      · simpa [mainLoop, hskip, hempty] using ih file h
      · simpa [mainLoop, hskip, hempty] using
          ih (appendRecords file (processRepo r.owner r.name (api r)))
            (wf_appendRecords _ h)

lemma mainLoop_fixed : ∀ (repos : List RepoRef) (file : FileState),
    (∀ r ∈ repos, fullName r ∈ processed ∨ processRepo r.owner r.name (api r) = []) →
    (mainLoop api processed repos file).1 = file := by
  intro repos
  induction repos with
  | nil => intro file _; rfl
  | cons r rest ih =>
    intro file h
    have hr := h r (List.mem_cons_self r rest)
    have hrest : ∀ x ∈ rest, fullName x ∈ processed ∨ processRepo x.owner x.name (api x) = [] :=
      fun x hx => h x (List.mem_cons_of_mem r hx)
    by_cases hskip : fullName r ∈ processed
    · simpa [mainLoop, hskip] using ih file hrest
    · rcases hr with hmem | hempty
      · exact absurd hmem hskip
      · simpa [mainLoop, hskip, hempty] using ih file hrest

lemma mem_collected : ∀ (repos : List RepoRef) (file : FileState) (r : RepoRef),
    r ∈ (mainLoop api processed repos file).2 → fullName r ∉ processed := by
  intro repos
  induction repos with
  | nil => intro file r h; simp [mainLoop] at h
  | cons hd rest ih =>
    intro file r h
    by_cases hskip : fullName hd ∈ processed
    · rw [show mainLoop api processed (hd :: rest) file = mainLoop api processed rest file by
        simp [mainLoop, hskip]] at h
      exact ih file r h
    · simp only [mainLoop, if_neg hskip, Prod.map, id] at h
      rcases List.mem_cons.mp h with rfl | h2
      · exact hskip
      · exact ih _ r h2

lemma collected_of_not_processed : ∀ (repos : List RepoRef) (file : FileState) (r : RepoRef),
    r ∈ repos → fullName r ∉ processed → r ∈ (mainLoop api processed repos file).2 := by
  intro repos
  induction repos with
  | nil => intro file r h; simp at h
  | cons hd rest ih =>
    intro file r hmem hnp
    by_cases hskip : fullName hd ∈ processed
    · rw [show mainLoop api processed (hd :: rest) file = mainLoop api processed rest file by
        simp [mainLoop, hskip]]
      rcases List.mem_cons.mp hmem with rfl | h2
      · exact absurd hskip hnp
      · exact ih file r h2 hnp
    · simp only [mainLoop, if_neg hskip, Prod.map, id]
      rcases List.mem_cons.mp hmem with rfl | h2
      · exact List.mem_cons_self r _
      · exact List.mem_cons_of_mem hd (ih _ r h2 hnp)

lemma mem_newRows : ∀ (repos : List RepoRef) (rec : PRRecord),
    rec ∈ newRows api processed repos →
    ∃ r ∈ repos, fullName r ∉ processed ∧ rec ∈ processRepo r.owner r.name (api r) := by
  intro repos
  induction repos with
  | nil => intro rec h; simp [newRows] at h
  | cons hd rest ih =>
    intro rec h
    simp only [newRows] at h
    rcases List.mem_append.mp h with h1 | h2
    · by_cases hskip : fullName hd ∈ processed
      · rw [if_pos hskip] at h1; simp at h1
      · rw [if_neg hskip] at h1
        exact ⟨hd, List.mem_cons_self hd rest, hskip, h1⟩
    · obtain ⟨r, hr, hnp, hrec⟩ := ih rec h2
      exact ⟨r, List.mem_cons_of_mem hd hr, hnp, hrec⟩

lemma subset_newRows : ∀ (repos : List RepoRef) (r : RepoRef), r ∈ repos →
    fullName r ∉ processed → ∀ rec ∈ processRepo r.owner r.name (api r),
      rec ∈ newRows api processed repos := by
  intro repos
  induction repos with
  | nil => intro r h; simp at h
  | cons hd rest ih =>
    intro r hmem hnp rec hrec
    simp only [newRows]
    rcases List.mem_cons.mp hmem with rfl | h2
    · exact List.mem_append.mpr (Or.inl (by rw [if_neg hnp]; exact hrec))
    · exact List.mem_append.mpr (Or.inr (ih r h2 hnp rec hrec))

lemma nodup_newRows : ∀ repos : List RepoRef, (repos.map fullName).Nodup →
    (∀ r ∈ repos,
      ((processRepo r.owner r.name (api r)).map (fun rec => rec.pr_number)).Nodup) →
    ((newRows api processed repos).map tripleOf).Nodup := by
  intro repos
  induction repos with
  | nil => intro _ _; simp [newRows]
  | cons hd rest ih =>
    intro hnd hnum
    have hnd' : (rest.map fullName).Nodup := (List.nodup_cons.mp hnd).2
    have hhd : fullName hd ∉ rest.map fullName := (List.nodup_cons.mp hnd).1
    have hnum' : ∀ r ∈ rest,
        ((processRepo r.owner r.name (api r)).map (fun rec => rec.pr_number)).Nodup :=
      fun r hr => hnum r (List.mem_cons_of_mem hd hr)
    have htail := ih hnd' hnum'
    simp only [newRows, List.map_append]
    by_cases hskip : fullName hd ∈ processed
    · simpa [hskip] using htail
    · rw [if_neg hskip]
      refine List.Nodup.append ?_ htail ?_
      · refine List.Nodup.of_map (fun t => t.2.2) ?_
        rw [List.map_map]
        exact hnum hd (List.mem_cons_self hd rest)
      · intro t ht1 ht2
        obtain ⟨rec, hrec, rfl⟩ := List.mem_map.mp ht1
        obtain ⟨rec', hrec', heq⟩ := List.mem_map.mp ht2
        obtain ⟨ho, hn⟩ := processRepo_owner_name hrec
        obtain ⟨r', hr', hnp', hrec''⟩ := mem_newRows api processed rest rec' hrec'
        obtain ⟨ho', hn'⟩ := processRepo_owner_name hrec''
        have h1 : rec'.repo_owner = rec.repo_owner := congrArg (fun t => t.1) heq
        have h2 : rec'.repo_name = rec.repo_name := congrArg (fun t => t.2.1) heq
        have hfn : fullName r' = fullName hd := by
          simp only [fullName]
          rw [← ho, ← hn, ← ho', ← hn', h1, h2]
        exact hhd (hfn ▸ List.mem_map_of_mem fullName hr')

end OrchestratorLemmas

/-- C6: a PR node with zero reviews is mapped to no record at all, every
record the collector returns has review count at least 1, and so does
every data row of the output file an orchestrator run builds from no
prior output. -/
theorem zero_reviews_never_output :
    (∀ (o n : String) (pr : PRNode), pr.reviewsTotalCount = 0 → processNode o n pr = none) ∧
    (∀ (o n : String) (resp : List (Option Page)) (rec : PRRecord),
        rec ∈ processRepo o n resp → 1 ≤ rec.reviews) ∧
    (∀ (api : RepoRef → List (Option Page)) (repos : List RepoRef) (rec : PRRecord),
        rec ∈ dataRecs (mainRun api repos none).1 → 1 ≤ rec.reviews) := by
  have key : ∀ (o n : String) (resp : List (Option Page)) (rec : PRRecord),
      rec ∈ processRepo o n resp → 1 ≤ rec.reviews := by
    intro o n resp rec h
    obtain ⟨pr, hpr⟩ := mem_processRepo h
    obtain ⟨hrec, hrev, -⟩ := processNode_eq_some hpr
    subst hrec
    exact Nat.one_le_iff_ne_zero.mpr hrev
  refine ⟨?_, key, ?_⟩
  · intro o n pr h
    simp [processNode, h]
  · intro api repos rec h
    have hrows := mainLoop_fst api (getValidRepos none) repos none
    rw [show mainRun api repos none = mainLoop api (getValidRepos none) repos none from rfl]
      at h
    rw [hrows] at h
    rw [show dataRecs none = [] from rfl, List.nil_append] at h
    obtain ⟨r, -, -, hrec⟩ := mem_newRows api (getValidRepos none) repos rec h
    exact key r.owner r.name (api r) rec hrec

/-- Witness for C6: the passing node's record is in the collector output
of the sample page and has review count at least 1. -/
theorem zero_reviews_never_output_witness :
    mkRecord "octo" "hello" goodNode ∈ processRepo "octo" "hello" [some samplePage] ∧
    1 ≤ (mkRecord "octo" "hello" goodNode).reviews :=
  ⟨by decide, zero_reviews_never_output.2.1 "octo" "hello" [some samplePage]
      (mkRecord "octo" "hello" goodNode) (by decide)⟩

/-- C7: every record the collector returns has parseable creation and
closure timestamps (closure taken as the merge time when truthy, else the
close time) at least 3600 seconds apart; and a node whose elapsed time is
at least 3600 seconds — the boundary included — is retained whenever the
other filters pass. -/
theorem duration_filter :
    (∀ (o n : String) (resp : List (Option Page)) (rec : PRRecord),
        rec ∈ processRepo o n resp →
        ∃ c cl : Int, parseTs rec.created_at = some c ∧
          parseTs (if isTruthy rec.merged_at then rec.merged_at else rec.closed_at) =
            some cl ∧ 3600 ≤ cl - c) ∧
    (∀ (o n : String) (pr : PRNode) (c cl : Int), pr.reviewsTotalCount ≠ 0 →
        parseTs pr.createdAt = some c → parseTs (chooseClosed pr) = some cl →
        3600 ≤ cl - c → processNode o n pr = some (mkRecord o n pr)) := by
  constructor
  · intro o n resp rec h
    obtain ⟨pr, hpr⟩ := mem_processRepo h
    obtain ⟨hrec, -, c, cl, hc, hcl, hge⟩ := processNode_eq_some hpr
    subst hrec
    exact ⟨c, cl, hc, hcl, hge⟩
  · intro o n pr c cl hrev hc hcl hge
    exact processNode_retained hrev hc hcl hge

/-- Witness for C7: a node whose elapsed time is exactly 3600 seconds is
retained. -/
theorem duration_filter_witness :
    processNode "octo" "hello" boundaryNode = some (mkRecord "octo" "hello" boundaryNode) :=
  duration_filter.2 "octo" "hello" boundaryNode 0 3600 (by decide) (by decide) (by decide)
    (by decide)

lemma processRepoLoop_congr (o n : String) {nodes nodes' : List PRNode}
    (heq : nodes.filterMap (processNode o n) = nodes'.filterMap (processNode o n)) (b : Bool) :
    ∀ (ps qs : List (Option Page)) (acc : List PRRecord),
      processRepoLoop o n acc (ps ++ some ⟨nodes, b⟩ :: qs) =
      processRepoLoop o n acc (ps ++ some ⟨nodes', b⟩ :: qs) := by
  intro ps
  induction ps with
  | nil =>
    intro qs acc
    simp only [List.nil_append, processRepoLoop]
    rw [heq]
  | cons hd tl ih =>
    intro qs acc
    cases hd with
    | none => simp [processRepoLoop]
    | some p =>
      simp only [List.cons_append, processRepoLoop]
      by_cases hb : p.hasNextPage
      · rw [if_pos hb, if_pos hb]
        exact ih qs _
      · rw [if_neg hb, if_neg hb]

/-- C8: a node whose closure timestamp is missing, or one of whose
timestamps fails to parse, is mapped to no record; and dropping such a
node from any page leaves the collector's output unchanged — the
remaining nodes of the page and the remaining pages are still
processed. -/
theorem malformed_node_never_output (o n : String) (pr : PRNode)
    (hbad : parseTs pr.createdAt = none ∨ parseTs (chooseClosed pr) = none) :
    processNode o n pr = none ∧
    ∀ (ps qs : List (Option Page)) (pre post : List PRNode) (b : Bool),
      processRepo o n (ps ++ some ⟨pre ++ pr :: post, b⟩ :: qs) =
      processRepo o n (ps ++ some ⟨pre ++ post, b⟩ :: qs) := by
  have h1 : processNode o n pr = none := by
    by_cases hrev : pr.reviewsTotalCount = 0
    · simp [processNode, hrev]
    · rcases hbad with hc | hcl
      · simp [processNode, hrev, hc]
      · cases hc2 : parseTs pr.createdAt with
        | none => simp [processNode, hrev, hc2]
        | some c =>
          by_cases ht : isTruthy (chooseClosed pr) = true
          · simp [processNode, hrev, hc2, ht, hcl]
          · simp [processNode, hrev, hc2, ht]
  refine ⟨h1, ?_⟩
  intro ps qs pre post b
  have hfm : (pre ++ pr :: post).filterMap (processNode o n) =
      (pre ++ post).filterMap (processNode o n) := by
    simp [List.filterMap_append, List.filterMap_cons, h1]
  exact processRepoLoop_congr o n hfm b ps qs []

/-- Witness for C8: the node with a missing closure timestamp is dropped
and its removal from the sample page leaves the output unchanged. -/
theorem malformed_node_never_output_witness :
    processNode "octo" "hello" missingCloseNode = none ∧
    (∀ (ps qs : List (Option Page)) (pre post : List PRNode) (b : Bool),
      processRepo "octo" "hello" (ps ++ some ⟨pre ++ missingCloseNode :: post, b⟩ :: qs) =
      processRepo "octo" "hello" (ps ++ some ⟨pre ++ post, b⟩ :: qs)) :=
  malformed_node_never_output "octo" "hello" missingCloseNode (Or.inr (by decide))

/-- C4: one append invocation writes the old rows unchanged followed by a
header exactly when the file was absent or empty and then the given
records in order; its data rows are the old data rows plus the given
records, and every old row is still present afterwards (strictly
additive). -/
theorem append_contract (file : FileState) (recs : List PRRecord) :
    ((appendRecords file recs).getD [] =
      file.getD [] ++ (if file = none ∨ file = some [] then [CsvRow.header] else [])
        ++ recs.map CsvRow.data) ∧
    dataRecs (appendRecords file recs) = dataRecs file ++ recs ∧
    (∀ row ∈ file.getD [], row ∈ (appendRecords file recs).getD []) := by
  have heq : (appendRecords file recs).getD [] =
      file.getD [] ++ (if file = none ∨ file = some [] then [CsvRow.header] else [])
        ++ recs.map CsvRow.data := by
    cases file with
    | none => simp [appendRecords]
    | some rows =>
      cases rows with
      | nil => simp [appendRecords]
      | cons hd tl => simp [appendRecords]
  refine ⟨heq, dataRecs_append file recs, ?_⟩
  intro row hrow
  rw [heq]
  exact List.mem_append.mpr (Or.inl (List.mem_append.mpr (Or.inl hrow)))

/-- C5: the progress loader does return the empty set on an absent file
and on a size-zero file (EmptyDataError is caught), and on a readable file
it returns the `owner/name` keys of the lines after the header; but on a
malformed file — one whose first line is not the expected header, so the
`repo_owner`/`repo_name` columns are missing — `pd.read_csv(usecols=...)`
raises ValueError, which `except (pd.errors.EmptyDataError, KeyError)`
does not catch: the exception propagates and the run crashes instead of
returning the empty set. -/
theorem load_progress_crash_on_malformed :
    getValidReposChecked (some [CsvRow.data (mkRecord "octo" "hello" goodNode)]) =
      Except.error () ∧
    getValidReposChecked none = Except.ok ∅ ∧
    getValidReposChecked (some []) = Except.ok ∅ ∧
    (∀ rest : List CsvRow,
      getValidReposChecked (some (CsvRow.header :: rest)) =
        Except.ok ((rest.map rowKey).toFinset)) :=
  ⟨rfl, rfl, rfl, fun _ => rfl⟩

lemma dataRecs_mainRun_none (api : RepoRef → List (Option Page)) (repos : List RepoRef) :
    dataRecs (mainRun api repos none).1 = newRows api ∅ repos := by
  have h := mainLoop_fst api (getValidRepos none) repos none
  rw [show dataRecs (none : FileState) = [] from rfl, List.nil_append] at h
  exact h

/-- C1: starting from no output file, running the orchestrator and then
running it again over the same candidate list with the persisted output of
the first run: every candidate whose identity is in the output at the
second run's startup is skipped (collection is never invoked for it), the
second run leaves the file untouched, and the final output holds no
duplicated (repo_owner, repo_name, pr_number) row — given that the
candidate identities are distinct and the API hands each repository
pairwise distinct PR numbers. -/
theorem idempotent_resume (api : RepoRef → List (Option Page)) (repos : List RepoRef)
    (hnd : (repos.map fullName).Nodup)
    (hnum : ∀ r ∈ repos,
      ((processRepo r.owner r.name (api r)).map (fun rec => rec.pr_number)).Nodup) :
    (∀ r ∈ repos, fullName r ∈ getValidRepos (mainRun api repos none).1 →
        r ∉ (mainRun api repos (mainRun api repos none).1).2) ∧
    (mainRun api repos (mainRun api repos none).1).1 = (mainRun api repos none).1 ∧
    ((dataRecs (mainRun api repos (mainRun api repos none).1).1).map tripleOf).Nodup := by
  have hwf1 : WFfile (mainRun api repos none).1 :=
    wf_mainLoop api (getValidRepos none) repos none (Or.inl rfl)
  have hrows1 := dataRecs_mainRun_none api repos
  have hproc2 : ∀ r ∈ repos, fullName r ∈ getValidRepos (mainRun api repos none).1 ∨
      processRepo r.owner r.name (api r) = [] := by
    intro r hr
    by_cases he : processRepo r.owner r.name (api r) = []
    · exact Or.inr he
    · left
      obtain ⟨rec, hrec⟩ := List.exists_mem_of_ne_nil _ he
      have hmem : rec ∈ newRows api ∅ repos :=
        subset_newRows api ∅ repos r hr (by simp) rec hrec
      rw [getValidRepos_mem hwf1]
      refine ⟨rec, ?_, ?_⟩
      · rw [hrows1]; exact hmem
      · obtain ⟨ho, hn⟩ := processRepo_owner_name hrec
        rw [ho, hn]; rfl
  refine ⟨?_, ?_, ?_⟩
  · intro r hr hkey hcol
    exact absurd hkey
      (mem_collected api (getValidRepos (mainRun api repos none).1) repos _ r hcol)
  · exact mainLoop_fixed api (getValidRepos (mainRun api repos none).1) repos _ hproc2
  · have hfix : (mainRun api repos (mainRun api repos none).1).1 = (mainRun api repos none).1 :=
      mainLoop_fixed api (getValidRepos (mainRun api repos none).1) repos _ hproc2
    rw [hfix, hrows1]
    exact nodup_newRows api ∅ repos hnd hnum

/-- Witness for C1 at a one-candidate list and the sample network. -/
theorem idempotent_resume_witness :
    (∀ r ∈ [sampleRepo],
        fullName r ∈ getValidRepos (mainRun sampleApi [sampleRepo] none).1 →
        r ∉ (mainRun sampleApi [sampleRepo] (mainRun sampleApi [sampleRepo] none).1).2) ∧
    (mainRun sampleApi [sampleRepo] (mainRun sampleApi [sampleRepo] none).1).1 =
      (mainRun sampleApi [sampleRepo] none).1 ∧
    ((dataRecs (mainRun sampleApi [sampleRepo]
        (mainRun sampleApi [sampleRepo] none).1).1).map tripleOf).Nodup :=
  idempotent_resume sampleApi [sampleRepo] (by decide) (by decide)

/-- C10: a candidate whose collection comes back empty leaves no data row
in the output of a run that starts from no file, its identity is absent
from the progress set rebuilt from that output, and the next run invokes
collection for it again — given distinct candidate identities. -/
theorem empty_result_recollected (api : RepoRef → List (Option Page)) (repos : List RepoRef)
    (r : RepoRef) (hr : r ∈ repos) (hnd : (repos.map fullName).Nodup)
    (hempty : processRepo r.owner r.name (api r) = []) :
    (∀ rec ∈ dataRecs (mainRun api repos none).1,
        ¬ (rec.repo_owner = r.owner ∧ rec.repo_name = r.name)) ∧
    fullName r ∉ getValidRepos (mainRun api repos none).1 ∧
    r ∈ (mainRun api repos (mainRun api repos none).1).2 := by
  have hwf1 : WFfile (mainRun api repos none).1 :=
    wf_mainLoop api (getValidRepos none) repos none (Or.inl rfl)
  have hrows1 := dataRecs_mainRun_none api repos
  have hnot : fullName r ∉ getValidRepos (mainRun api repos none).1 := by
    intro hmem
    rw [getValidRepos_mem hwf1] at hmem
    obtain ⟨rec, hrec, hkey⟩ := hmem
    rw [hrows1] at hrec
    obtain ⟨r', hr', -, hrec'⟩ := mem_newRows api ∅ repos rec hrec
    obtain ⟨ho', hn'⟩ := processRepo_owner_name hrec'
    have hfn : fullName r' = fullName r := by
      simp only [fullName]
      rw [← ho', ← hn']
      exact hkey
    have heqr : r' = r := List.inj_on_of_nodup_map hnd hr' hr hfn
    rw [heqr, hempty] at hrec'
    exact absurd hrec' (List.not_mem_nil rec)
  have hkeyrow : ∀ rec ∈ dataRecs (mainRun api repos none).1,
      ¬ (rec.repo_owner = r.owner ∧ rec.repo_name = r.name) := by
    rintro rec hrec ⟨ho, hn⟩
    rw [hrows1] at hrec
    obtain ⟨r', hr', -, hrec'⟩ := mem_newRows api ∅ repos rec hrec
    obtain ⟨ho', hn'⟩ := processRepo_owner_name hrec'
    have hfn : fullName r' = fullName r := by
      simp only [fullName]
      rw [← ho', ← hn', ho, hn]
    have heqr : r' = r := List.inj_on_of_nodup_map hnd hr' hr hfn
    rw [heqr, hempty] at hrec'
    exact absurd hrec' (List.not_mem_nil rec)
  exact ⟨hkeyrow, hnot,
    collected_of_not_processed api (getValidRepos (mainRun api repos none).1) repos
      (mainRun api repos none).1 r hr hnot⟩

/-- Witness for C10 at a one-candidate list and a network that returns an
empty final page. -/
theorem empty_result_recollected_witness :
    (∀ rec ∈ dataRecs (mainRun emptyPageApi [sampleRepo] none).1,
        ¬ (rec.repo_owner = sampleRepo.owner ∧ rec.repo_name = sampleRepo.name)) ∧
    fullName sampleRepo ∉ getValidRepos (mainRun emptyPageApi [sampleRepo] none).1 ∧
    sampleRepo ∈ (mainRun emptyPageApi [sampleRepo]
        (mainRun emptyPageApi [sampleRepo] none).1).2 :=
  empty_result_recollected emptyPageApi [sampleRepo] sampleRepo (by decide) (by decide)
    (by decide)
